import Mathlib

/-!
Shallow embedding of the marketplace-release GitHub action
(folder parser strategies, folder structure builder, package/destructive
manifest derivation, dependency preparation, and the per-feature run loop),
translated from the TypeScript sources, together with theorems settling the
frozen specification claims.

Paths are modelled as `String` values over the POSIX separator, exactly as the
action handles them (the action runs on a Linux GitHub runner and every path
operation in the source goes through the node `path` module with `/` as
separator).
-/

namespace MarketplaceRelease

/-- Association-list lookup, modelling a JavaScript record access `rec[key]`
(`none` models `undefined`; JavaScript object keys are unique, and the model
keeps the first binding, matching object-literal semantics for the records the
action builds). -/
def lookupA {α : Type} : List (String × α) → String → Option α
  | [], _ => none
  | (k, v) :: rest, key => if key = k then some v else lookupA rest key

/-- Splits a character list at every `/`, modelling the JavaScript
`str.split(sep)` with the POSIX path separator: `""` splits to `[""]`,
separators at the ends produce empty segments. -/
def splitOnSlash : List Char → List (List Char)
  | [] => [[]]
  | c :: rest =>
    match splitOnSlash rest with
    | [] => if c = '/' then [[], []] else [[c]]
    | seg :: segs => if c = '/' then [] :: seg :: segs else (c :: seg) :: segs

/-- Joins segments with `/`, modelling `arr.join(sep)`. -/
def joinSlash (segs : List (List Char)) : List Char :=
  List.intercalate ['/'] segs

/-- Models node `path.join(a, b)` for the joins the action performs (a
directory path joined with a plain entry name, where no normalization
applies). -/
def pathJoin (a b : String) : String := a ++ "/" ++ b

/-- Models node `path.basename(p)` on POSIX paths: trailing separators are
stripped, then the part after the last separator is returned. -/
def basename (s : String) : String :=
  let r := s.data.reverse.dropWhile (fun c => c = '/')
  String.mk ((r.takeWhile (fun c => c != '/')).reverse)

/-- Models `featurePath.split(path.sep).slice(0, -1).join(path.sep)` from
`prepDependencies`. -/
def parentDir (s : String) : String :=
  String.mk (joinSlash (splitOnSlash s.data).dropLast)

/-- Bool-valued infix (substring) test on character lists. -/
def listInfixTest (needle : List Char) : List Char → Bool
  | [] => needle.isEmpty
  | c :: rest => needle.isPrefixOf (c :: rest) || listInfixTest needle rest

/-- Models the JavaScript `filePath.includes(sub)` substring test. -/
def strIncludes (s sub : String) : Bool := listInfixTest sub.data s.data

/-- Models the JavaScript `s.endsWith(suf)` test. -/
def strEndsWith (s suf : String) : Bool := suf.data.isSuffixOf s.data

/-- Regex test for `/\.[^\/]+$/` (the `_filenameWithExtensionRegex` of the
default folder parser strategy): the string has a `.` followed by at least one
character, with no `/` between that dot and the end of the string. -/
def extTestAux : List Char → Bool
  | [] => false
  | c :: rest =>
    (c = '.' && !rest.isEmpty && rest.all (fun d => d != '/')) || extTestAux rest

/-- `_filenameWithExtensionRegex.test s` of the default strategy. -/
def filenameWithExtensionTest (s : String) : Bool := extTestAux s.data

/-!
## Folder parser strategies (`src/utils/folder-parser.ts`)
-/

/-- A folder parser strategy: `parseFiles(filePaths, ignoredFolderContent?)`.
The second argument is optional in the TypeScript interface, so it is
modelled as an `Option`; the default strategy applies its declared default
value `[]` when the argument is absent. -/
structure FolderParserStrategy where
  parseFiles : List String → Option (List String) → List String

/-- Default folder parser: keeps a path when its basename matches the
extension regex, no ignored marker occurs in the path as a substring, and the
basename does not end with `-meta.xml`. -/
def DefaultFolderParserStrategy : FolderParserStrategy :=
  ⟨fun filePaths ignoredOpt =>
    let ignoredFolderContent := ignoredOpt.getD []
    filePaths.filter (fun filePath =>
      let fileName := basename filePath
      filenameWithExtensionTest fileName &&
        !(ignoredFolderContent.any (fun ignored => strIncludes filePath ignored)) &&
        !(strEndsWith fileName "-meta.xml"))⟩

/-- The first match of the regex `/\/objects\/([^\/]+)/` on a path: scanning
left to right, the first position where the literal `/objects/` occurs and is
followed by at least one non-`/` character yields the maximal run of
non-`/` characters after it; positions where the `[^\/]+` part cannot match
are skipped, as the regex engine does. -/
def firstObjectsCapture : List Char → Option (List Char)
  | [] => none
  | c :: rest =>
    if ("/objects/".data).isPrefixOf (c :: rest) then
      let name := ((c :: rest).drop 9).takeWhile (fun d => d != '/')
      if name.isEmpty then firstObjectsCapture rest else some name
    else firstObjectsCapture rest

/-- The body of the `forEach` loop building the `featureNames` set of
`_getUniqueObjectPaths`: add the first-match capture of the path, if any,
deduplicating as a JavaScript `Set` does. -/
def featureNamesStep (acc : List (List Char)) (p : String) : List (List Char) :=
  match firstObjectsCapture p.data with
  | none => acc
  | some n => if n ∈ acc then acc else acc ++ [n]

/-- The `featureNames` set built by `_getUniqueObjectPaths`: the first-match
captures of all input paths, deduplicated in insertion order. -/
def featureNames (paths : List String) : List (List Char) :=
  paths.foldl featureNamesStep []

/-- Objects folder parser: keeps the paths that end with `/objects/<name>` for
some captured `<name>`; the optional ignored-content argument is not declared
by this strategy and is discarded. -/
def ObjectsFolderParserStrategy : FolderParserStrategy :=
  ⟨fun filePaths _ =>
    filePaths.filter (fun filePath =>
      (featureNames filePaths).any (fun n =>
        ("/objects/".data ++ n).isSuffixOf filePath.data))⟩

/-- The `CustomFolderParserStrategies` registry: a record with the single key
`objects`. -/
def CustomFolderParserStrategies : List (String × FolderParserStrategy) :=
  [("objects", ObjectsFolderParserStrategy)]

/-- The strategy lookup `CustomFolderParserStrategies[key] || new
DefaultFolderParserStrategy()` performed by the builder. -/
def strategyFor (key : String) : FolderParserStrategy :=
  (lookupA CustomFolderParserStrategies key).getD DefaultFolderParserStrategy

/-- `FolderStructureBuilder.build()`: iterate the record keys in insertion
order (modelled by the association list order), apply to each key the looked
up strategy on the path list of that key and the ignored-content list, and
flatten. -/
def FolderStructureBuilder.build
    (filePathsByObjectType : List (String × List String))
    (ignoredFolderContent : Option (List String)) : List String :=
  ((filePathsByObjectType.map Prod.fst).map (fun key =>
    (strategyFor key).parseFiles
      ((lookupA filePathsByObjectType key).getD [])
      ignoredFolderContent)).flatten

/-!
## Package manifest derivation (`createUninstallPackageMetadata`)

The pure core of `createUninstallPackageMetadata`: the function reads the
generated install `package.xml`, parses it with xml2js, removes the `types`
nodes, and serializes two documents (the uninstall `package.xml` and
`destructiveChanges.xml`). File reading and writing are the only elided
effects; the document transformation is modelled structurally.
-/

/-- One `<types>` element of a manifest: a type name with its member list. -/
structure TypesEntry where
  name : String
  members : List String
deriving DecidableEq

/-- A parsed `<Package>` document as xml2js produces it: the root attributes
(the `xmlns` declaration, when present on the parsed document), the list of
`types` nodes (the absent key is modelled by `[]`), and the optional
`version` tag. -/
structure ParsedPackage where
  xmlns : Option String
  types : List TypesEntry
  version : Option String
deriving DecidableEq

/-- A serialized document at the granularity the transformation observes: the
`standalone` attribute of the XML declaration emitted by the xml2js `Builder`,
the root `xmlns` attribute, the `types` nodes and the `version` tag. -/
structure XmlDoc where
  standalone : Bool
  rootXmlns : Option String
  types : List TypesEntry
  version : Option String
deriving DecidableEq

/-- The Salesforce metadata namespace URI spliced into the root tag. -/
def sfMetadataNs : String := "http://soap.sforce.com/2006/04/metadata"

/-- `new Builder().buildObject(p)`: serializes with the default header
`standalone="yes"` and the root attributes of the object. -/
def buildObject (p : ParsedPackage) : XmlDoc :=
  ⟨true, p.xmlns, p.types, p.version⟩

/-- The first `replace` call: substitutes the bare `<Package>` open tag by
one carrying the Salesforce namespace attribute. The literal `<Package>`
occurs in the serialized text exactly when the root element has no
attributes, so the namespace is added only then. -/
def replacePackageOpenTag (d : XmlDoc) : XmlDoc :=
  if d.rootXmlns = none then { d with rootXmlns := some sfMetadataNs } else d

/-- The second `replace` call: deletes the `standalone="yes"` attribute from
the serialized XML declaration header. -/
def stripStandalone (d : XmlDoc) : XmlDoc := { d with standalone := false }

/-- The document transformation of `createUninstallPackageMetadata`: extract
the `types` nodes, delete them from the parsed package, serialize the
destructive-changes document from a fresh root holding only the `types`
nodes, and serialize the updated (uninstall) `package.xml` from the residue;
both serializations get the namespace splice and the `standalone` strip.
Returns (uninstall `package.xml` document, `destructiveChanges.xml`
document), the two files the function writes. -/
def createUninstallPackageMetadata (parsedPackageXml : ParsedPackage) :
    XmlDoc × XmlDoc :=
  let typesNodes := parsedPackageXml.types
  let remaining : ParsedPackage := { parsedPackageXml with types := [] }
  let destructiveChangesXml :=
    stripStandalone (replacePackageOpenTag
      (buildObject ⟨none, typesNodes, none⟩))
  let updatedPackageXml :=
    stripStandalone (replacePackageOpenTag (buildObject remaining))
  (updatedPackageXml, destructiveChangesXml)

/-!
## Index entry construction (`run`, lines 726-740 of the action)
-/

/-- The parsed `bundle.json` declaration of a feature (the `FeatureBundle`
model): optional fields are `Option`, matching absent JSON keys. -/
structure FeatureBundle where
  name : String
  description : String
  version : Option String
  documentation : Option String
  iconUrl : Option String
  dependencies : Option (List String)
  packageDependencies : Option (List String)
  availability : Option String
  tags : Option (List String)
deriving DecidableEq

/-- JavaScript `x || d` for an optional string: `undefined` and the empty
string are falsy. -/
def jsOrStr (x : Option String) (d : String) : String :=
  match x with
  | none => d
  | some s => if s = "" then d else s

/-- One entry of `info.bundles` in the emitted `index.json`. -/
structure IndexBundleEntry where
  id : String
  name : String
  description : String
  version : String
  files : List String
  documentation : String
  iconUrl : Option String
  dependencies : List String
  packageDependencies : List String
  availability : String
  tags : List String
deriving DecidableEq

/-- The object literal pushed onto `info.bundles` for one feature folder
(`run`, lines 726-740): `version` is the run-wide `RELEASE_VERSION` input,
`availability` falls back to `public`, the list fields fall back to `[]`
(`x || []`: a present empty array is truthy and kept as is), and `files` is
the builder output relativized by the caller (passed here as computed). -/
def mkBundleEntry (folder : String) (featureInfo : FeatureBundle)
    (releaseVersion : String) (files : List String) : IndexBundleEntry :=
  { id := folder
    name := featureInfo.name
    description := featureInfo.description
    version := releaseVersion
    files := files
    documentation := jsOrStr featureInfo.documentation ""
    iconUrl := featureInfo.iconUrl
    dependencies := featureInfo.dependencies.getD []
    packageDependencies := featureInfo.packageDependencies.getD []
    availability := jsOrStr featureInfo.availability "public"
    tags := featureInfo.tags.getD [] }

/-!
## Filesystem model, `prepDependencies` and the feature loop of `run`

The action mutates the checked-out working tree through node `fs` calls and
`cp` child processes. The model represents the filesystem explicitly:

* `files` maps a file path to its content;
* `dirs` maps a directory path to its entry listing (`readdir` with
  `withFileTypes`), each entry being a name plus an is-directory flag.

Thrown exceptions are modelled by an `Option String` result component that
short-circuits the surrounding loops, exactly where the source has no
`try`/`catch`; where the source catches (`captureError`) or records failure
(`core.setFailed`), the model appends to `errors` / sets `failed`. External
collaborators (the Salesforce CLI invocation, archiving, the release upload,
git restore) catch their own failures in the source or are out of scope, and
are modelled as leaving the filesystem state unchanged.
-/

/-- One entry of a `readdir(..., { withFileTypes: true })` listing. -/
structure DirEntry where
  name : String
  isDir : Bool
deriving DecidableEq

/-- The modelled filesystem. -/
structure Fs where
  files : List (String × String)
  dirs : List (String × List DirEntry)
deriving DecidableEq

/-- The mutable action state threaded through the run: the filesystem, the
shared `errors` list appended to by `captureError`, and the flag set by
`core.setFailed`. -/
structure St where
  fs : Fs
  errors : List String
  failed : Bool
deriving DecidableEq

/-- Whether a directory exists at a path. -/
def dirExists (fs : Fs) (p : String) : Bool := (lookupA fs.dirs p).isSome

/-- `fileExists` of the action: an `access(p, F_OK)` probe, true when any
entry (file or directory) exists at the path. -/
def fileExists (fs : Fs) (p : String) : Bool :=
  (lookupA fs.files p).isSome || dirExists fs p

/-- `fsPromises.readdir(d, { withFileTypes: true })`: the listing, or a
thrown `ENOENT` error when the directory does not exist. -/
def readdirTypes (fs : Fs) (d : String) : Except String (List DirEntry) :=
  match lookupA fs.dirs d with
  | some entries => Except.ok entries
  | none => Except.error ("ENOENT: no such file or directory, scandir " ++ d)

/-- The fixed `IGNORED_DIRECTORY_CONTENT` constant of the action. -/
def IGNORED_DIRECTORY_CONTENT : List String :=
  ["dist", ".DS_Store", "package.xml", "destructiveChanges.xml", "bundle.json"]

/-- `getSubdirectories`: the directory entries of `directory` that are
directories and not in the ignored set, joined onto the directory path. -/
def getSubdirectories (fs : Fs) (directory : String) :
    Except String (List String) :=
  (readdirTypes fs directory).map (fun entries =>
    (entries.filter (fun entry =>
      entry.isDir && !(IGNORED_DIRECTORY_CONTENT.contains entry.name))).map
      (fun entry => pathJoin directory entry.name))

/-- `getFilesInDirectory`: the file entries of `directory`, joined onto the
directory path. -/
def getFilesInDirectory (fs : Fs) (directory : String) :
    Except String (List String) :=
  (readdirTypes fs directory).map (fun entries =>
    (entries.filter (fun entry => !entry.isDir)).map
      (fun entry => pathJoin directory entry.name))

/-- `fsPromises.mkdir(p, { recursive: true })`: succeeds when a directory is
already there, creates it when nothing is there, throws when a plain file
occupies the path. -/
def mkdirRecursive (fs : Fs) (p : String) : Except String Fs :=
  if dirExists fs p then Except.ok fs
  else if (lookupA fs.files p).isSome then
    Except.error ("EEXIST: file exists, mkdir " ++ p)
  else Except.ok { fs with dirs := fs.dirs ++ [(p, [])] }

/-- The `cp` child process: writes the content of `src` at `dst`. The action
only invokes it after establishing that nothing exists at `dst`, so the model
appends the new binding (assoc lookup keeps the first binding, so even an
unguarded call would not shadow an existing one). -/
def cpFile (fs : Fs) (src dst : String) : Fs :=
  { fs with files := fs.files ++ [(dst, (lookupA fs.files src).getD "")] }

/-- `captureError`: appends a prefixed message to the shared error list. -/
def captureError (st : St) (msg : String) : St :=
  { st with errors := st.errors ++ [msg] }

/-- `core.setFailed`: records run failure without throwing. -/
def setFailed (st : St) : St := { st with failed := true }

/-- The guarded per-file copy of `prepDependencies` (its inner
`try`/`catch` block): when the target path is already occupied the copy is
skipped and the run is marked failed, otherwise the file is copied. -/
def copyOneFile (st : St) (targetPath file : String) : St :=
  let fileName := basename file
  let targetFilePath := pathJoin targetPath fileName
  if fileExists st.fs targetFilePath then setFailed st
  else { st with fs := cpFile st.fs file targetFilePath }

/-- Sequences a step over a list, short-circuiting on a thrown exception, as
an `await` inside a `for` loop does. -/
def runSeq {α : Type} (f : St → α → St × Option String) :
    St → List α → St × Option String
  | st, [] => (st, none)
  | st, x :: xs =>
    match f st x with
    | (st', none) => runSeq f st' xs
    | (st', some e) => (st', some e)

/-- The per-subdirectory body of `prepDependencies`: ensure the same-named
target directory exists under the feature root (`mkdir` and the directory
listing are outside the `try`, so their errors propagate), then copy each
file with the guarded copy. -/
def copySubdirFiles (featurePath : String) (st : St) (subdirectory : String) :
    St × Option String :=
  let subdirectoryName := basename subdirectory
  let targetPath := pathJoin featurePath subdirectoryName
  match mkdirRecursive st.fs targetPath with
  | Except.error e => (st, some e)
  | Except.ok fs' =>
    let st := { st with fs := fs' }
    match getFilesInDirectory st.fs subdirectory with
    | Except.error e => (st, some e)
    | Except.ok files =>
      (files.foldl (fun s file => copyOneFile s targetPath file) st, none)

/-- The per-dependency body of `prepDependencies`: locate the sibling folder
and process each of its non-ignored subdirectories. `getSubdirectories` is
not inside any `try`, so a missing dependency folder throws out of the
function. -/
def prepOneDependency (featureParentPath featurePath : String) (st : St)
    (dependency : String) : St × Option String :=
  let dependencyPath := pathJoin featureParentPath dependency
  match getSubdirectories st.fs dependencyPath with
  | Except.error e => (st, some e)
  | Except.ok subs => runSeq (copySubdirFiles featurePath) st subs

/-- `prepDependencies(featurePath, dependencies)`. -/
def prepDependencies (st : St) (featurePath : String)
    (dependencies : List String) : St × Option String :=
  let featureParentPath := parentDir featurePath
  runSeq (prepOneDependency featureParentPath featurePath) st dependencies

/-- `hasDependencies` of the run loop:
`!!featureInfo.dependencies && !!featureInfo.dependencies.length`. -/
def hasDependencies (featureInfo : FeatureBundle) : Bool :=
  match featureInfo.dependencies with
  | some l => !l.isEmpty
  | none => false

/-- The per-feature loop of `run`, at the granularity relevant to error
propagation and index assembly. Per folder, in directory-listing order:
read `bundle.json` (modelled by an association list from folder name to its
parsed declaration; a missing file throws, and nothing in `run` or the
entry-point IIFE catches), run the external packaging step (which catches its
own failures), run `prepDependencies` when dependencies are declared (its
thrown errors propagate out of the loop), and append the feature id to the
index. The returned triple is (final state, ids appended to `info.bundles` in
order, propagated exception if any). -/
def runFeaturesLoop (bundlesPath : String)
    (bundleInfos : List (String × FeatureBundle)) :
    St → List String → St × List String × Option String
  | st, [] => (st, [], none)
  | st, folder :: rest =>
    let featurePath := pathJoin bundlesPath folder
    match lookupA bundleInfos folder with
    | none =>
      (st, [], some ("ENOENT: no such file or directory, open " ++
        pathJoin featurePath "bundle.json"))
    | some featureInfo =>
      if hasDependencies featureInfo then
        match prepDependencies st featurePath
            (featureInfo.dependencies.getD []) with
        | (st', some e) => (st', [], some e)
        | (st', none) =>
          match runFeaturesLoop bundlesPath bundleInfos st' rest with
          | (st'', ids, thrown) => (st'', folder :: ids, thrown)
      else
        match runFeaturesLoop bundlesPath bundleInfos st rest with
        | (st'', ids, thrown) => (st'', folder :: ids, thrown)

/-!
## Claim-side characterization for the objects strategy

Claim C5 describes the objects strategy as keeping the paths ending in
`/objects/<name>` for a `<name>` occurring as an immediate child segment
after an `objects` segment in ANY input path (at any occurrence). The
following definitions formalise that sentence, to be compared with the
source-derived `ObjectsFolderParserStrategy`.
-/

/-- The segments immediately following a segment equal to `objects`. -/
def childAfterObjects : List (List Char) → List (List Char)
  | [] => []
  | [_] => []
  | a :: b :: rest =>
    (if a = "objects".data then [b] else []) ++ childAfterObjects (b :: rest)

/-- All immediate child names after any `objects` segment of any input
path. -/
def specObjectsChildNames (paths : List String) : List (List Char) :=
  paths.foldr (fun p acc => childAfterObjects (splitOnSlash p.data) ++ acc) []

/-- The output set the C5 claim sentence describes: input paths ending with
`/objects/<name>` for some such child name. -/
def specObjectsOutput (paths : List String) : List String :=
  paths.filter (fun p =>
    (specObjectsChildNames paths).any
      (fun n => ("/objects/".data ++ n).isSuffixOf p.data))

/-!
## Frame relation for `prepDependencies`

`Pres a b` captures what the dependency-copy step may do to the filesystem
between two states: existing file contents are kept, existing directories are
kept, and any path whose file binding differs afterwards was entirely vacant
before (the guarded copy only writes to vacant targets).
-/

/-- Frame relation between two action states. -/
def Pres (a b : St) : Prop :=
  (∀ f c, lookupA a.fs.files f = some c → lookupA b.fs.files f = some c) ∧
  (∀ d, dirExists a.fs d = true → dirExists b.fs d = true) ∧
  (∀ f, lookupA b.fs.files f ≠ lookupA a.fs.files f → fileExists a.fs f = false)

/-!
## Concrete scenarios used by counterexamples and witnesses
-/

/-- A three-feature repository checkout: `alpha`, `beta`, `gamma` exist under
the bundles root, while `ghost` (declared as a dependency of `beta`) does
not. -/
def cexSt : St :=
  { fs :=
      { files := [("ws/bundles/alpha/bundle.json", "x")]
        dirs :=
          [("ws/bundles/alpha", []), ("ws/bundles/beta", []),
           ("ws/bundles/gamma", [])] }
    errors := []
    failed := false }

/-- The parsed `bundle.json` declarations for the three features; `beta`
declares a dependency on the missing sibling `ghost`. -/
def cexBundleInfos : List (String × FeatureBundle) :=
  [("alpha", ⟨"Alpha", "da", none, none, none, none, none, none, none⟩),
   ("beta", ⟨"Beta", "db", none, none, none, some ["ghost"], none, none, none⟩),
   ("gamma", ⟨"Gamma", "dg", none, none, none, none, none, none, none⟩)]

/-- A feature `beta` with a dependency `alpha` whose `classes` subdirectory
holds `A.cls` and `B.cls`; `beta` already has its own `classes/A.cls`. -/
def witSt : St :=
  { fs :=
      { files :=
          [("bundles/beta/classes/A.cls", "original"),
           ("bundles/alpha/classes/A.cls", "fromdep"),
           ("bundles/alpha/classes/B.cls", "bdep")]
        dirs :=
          [("bundles/alpha", [⟨"classes", true⟩]),
           ("bundles/alpha/classes", [⟨"A.cls", false⟩, ⟨"B.cls", false⟩]),
           ("bundles/beta", [⟨"classes", true⟩]),
           ("bundles/beta/classes", [⟨"A.cls", false⟩])] }
    errors := []
    failed := false }

/-- A feature declaration with every optional field absent. -/
def witBundleInfo : FeatureBundle :=
  ⟨"Wit", "wd", none, none, none, none, none, none, none⟩

/-- A parsed install manifest carrying the Salesforce namespace, one type and
a version tag. -/
def witParsedPackage : ParsedPackage :=
  ⟨some sfMetadataNs, [⟨"ApexClass", ["MyClass"]⟩], some "58.0"⟩

/-!
## Helper lemmas
-/

theorem lookupA_mem {α : Type} :
    ∀ (l : List (String × α)) (k : String) (v : α),
      lookupA l k = some v → (k, v) ∈ l
  | [], k, v, h => by simp [lookupA] at h
  | (k0, v0) :: t, k, v, h => by
    by_cases hk : k = k0
    · subst hk
      simp [lookupA] at h
      subst h
      exact List.mem_cons_self _ _
    · exact List.mem_cons_of_mem _
        (lookupA_mem t k v (by simpa [lookupA, hk] using h))

theorem lookupA_cons_ne {α : Type} (k0 : String) (v0 : α)
    (t : List (String × α)) (k : String) (h : k ≠ k0) :
    lookupA ((k0, v0) :: t) k = lookupA t k := by
  simp [lookupA, h]

theorem lookupA_append {α : Type} :
    ∀ (l m : List (String × α)) (k : String),
      lookupA (l ++ m) k =
        match lookupA l k with
        | some v => some v
        | none => lookupA m k
  | [], m, k => by simp [lookupA]
  | (k0, v0) :: t, m, k => by
    by_cases hk : k = k0
    · subst hk; simp [lookupA]
    · simpa [lookupA, hk] using lookupA_append t m k

theorem mem_featureNamesStep {n : List Char} {acc : List (List Char)}
    {p : String} :
    n ∈ featureNamesStep acc p ↔
      n ∈ acc ∨ firstObjectsCapture p.data = some n := by
  unfold featureNamesStep
  cases h : firstObjectsCapture p.data with
  | none => simp
  | some m =>
    by_cases hm : m ∈ acc
    · simp only [hm, if_true, Option.some_inj]
      constructor
      · exact fun h' => Or.inl h'
      · rintro (h' | rfl)
        · exact h'
        · exact hm
    · simp only [hm, if_false, List.mem_append, List.mem_singleton,
        Option.some_inj]
      constructor
      · rintro (h' | rfl)
        · exact Or.inl h'
        · exact Or.inr rfl
      · rintro (h' | rfl)
        · exact Or.inl h'
        · exact Or.inr rfl

theorem mem_foldl_featureNamesStep (n : List Char) :
    ∀ (l : List String) (acc : List (List Char)),
      n ∈ l.foldl featureNamesStep acc ↔
        n ∈ acc ∨ ∃ q ∈ l, firstObjectsCapture q.data = some n
  | [], acc => by simp
  | p :: t, acc => by
    rw [List.foldl_cons, mem_foldl_featureNamesStep n t, mem_featureNamesStep]
    simp only [List.exists_mem_cons_iff]
    tauto

theorem mem_featureNames {n : List Char} {paths : List String} :
    n ∈ featureNames paths ↔
      ∃ q ∈ paths, firstObjectsCapture q.data = some n := by
  unfold featureNames
  rw [mem_foldl_featureNamesStep]
  simp

theorem objects_parseFiles_mem {paths : List String}
    {ign : Option (List String)} {p : String} :
    p ∈ ObjectsFolderParserStrategy.parseFiles paths ign ↔
      p ∈ paths ∧ ∃ n,
        (∃ q ∈ paths, firstObjectsCapture q.data = some n) ∧
        ("/objects/".data ++ n).isSuffixOf p.data = true := by
  show p ∈ paths.filter _ ↔ _
  rw [List.mem_filter, List.any_eq_true]
  constructor
  · rintro ⟨hp, n, hn, hs⟩
    exact ⟨hp, n, mem_featureNames.mp hn, hs⟩
  · rintro ⟨hp, n, hn, hs⟩
    exact ⟨hp, n, mem_featureNames.mpr hn, hs⟩

theorem strategyFor_objects :
    strategyFor "objects" = ObjectsFolderParserStrategy := by
  simp [strategyFor, CustomFolderParserStrategies, lookupA]

theorem strategyFor_ne {k : String} (h : k ≠ "objects") :
    strategyFor k = DefaultFolderParserStrategy := by
  simp [strategyFor, CustomFolderParserStrategies, lookupA, h]

theorem default_parseFiles_subset {ps : List String}
    {ign : Option (List String)} {p : String}
    (h : p ∈ DefaultFolderParserStrategy.parseFiles ps ign) : p ∈ ps := by
  exact List.mem_of_mem_filter h

theorem objects_parseFiles_subset {ps : List String}
    {ign : Option (List String)} {p : String}
    (h : p ∈ ObjectsFolderParserStrategy.parseFiles ps ign) : p ∈ ps := by
  exact List.mem_of_mem_filter h

theorem strategyFor_parseFiles_subset {k : String} {ps : List String}
    {ign : Option (List String)} {p : String}
    (h : p ∈ (strategyFor k).parseFiles ps ign) : p ∈ ps := by
  by_cases hk : k = "objects"
  · subst hk; rw [strategyFor_objects] at h
    exact objects_parseFiles_subset h
  · rw [strategyFor_ne hk] at h
    exact default_parseFiles_subset h

theorem build_eq_flatten_map :
    ∀ (g : List (String × List String)) (ign : Option (List String)),
      (g.map Prod.fst).Nodup →
      FolderStructureBuilder.build g ign =
        (g.map (fun e => (strategyFor e.1).parseFiles e.2 ign)).flatten
  | [], ign, _ => rfl
  | (k, ps) :: t, ign, hnd => by
    rw [List.map_cons] at hnd
    obtain ⟨hk, hnd'⟩ := List.nodup_cons.mp hnd
    show ((((k, ps) :: t).map Prod.fst).map _).flatten = _
    rw [List.map_cons, List.map_cons, List.map_cons, List.flatten_cons,
      List.flatten_cons]
    congr 1
    · simp [lookupA]
    · have hmap :
          (t.map Prod.fst).map (fun key =>
            (strategyFor key).parseFiles
              ((lookupA ((k, ps) :: t) key).getD []) ign) =
          (t.map Prod.fst).map (fun key =>
            (strategyFor key).parseFiles ((lookupA t key).getD []) ign) := by
        apply List.map_congr_left
        intro key hkey
        have hne : key ≠ k := fun hek => hk (hek ▸ hkey)
        rw [lookupA_cons_ne _ _ _ _ hne]
      rw [hmap]
      exact build_eq_flatten_map t ign hnd'

theorem pres_refl (a : St) : Pres a a :=
  ⟨fun _ _ h => h, fun _ h => h, fun _ h => absurd rfl h⟩

theorem pres_fileExists_mono {a b : St} (h : Pres a b) {f : String}
    (hf : fileExists a.fs f = true) : fileExists b.fs f = true := by
  unfold fileExists at hf ⊢
  rcases Bool.or_eq_true_iff.mp hf with h1 | h2
  · cases hc : lookupA a.fs.files f with
    | none => rw [hc] at h1; simp at h1
    | some c =>
      rw [h.1 f c hc]
      simp
  · rw [h.2.1 f h2]
    simp

theorem pres_trans {a b c : St} (hab : Pres a b) (hbc : Pres b c) :
    Pres a c := by
  refine ⟨fun f v h => hbc.1 f v (hab.1 f v h),
    fun d h => hbc.2.1 d (hab.2.1 d h), fun f hne => ?_⟩
  by_cases h1 : lookupA b.fs.files f = lookupA a.fs.files f
  · have h2 : lookupA c.fs.files f ≠ lookupA b.fs.files f := by
      rw [h1]; exact hne
    have h3 := hbc.2.2 f h2
    cases hfa : fileExists a.fs f with
    | false => rfl
    | true =>
      have := pres_fileExists_mono hab hfa
      rw [this] at h3
      exact absurd h3 (by simp)
  · exact hab.2.2 f h1

theorem pres_fs_eq {a b : St} (h : b.fs = a.fs) : Pres a b := by
  refine ⟨fun f c hc => ?_, fun d hd => ?_, fun f hne => ?_⟩
  · rw [h]; exact hc
  · rw [h]; exact hd
  · rw [h] at hne; exact absurd rfl hne

theorem pres_copyOneFile (st : St) (targetPath file : String) :
    Pres st (copyOneFile st targetPath file) := by
  unfold copyOneFile
  by_cases hex :
      fileExists st.fs (pathJoin targetPath (basename file)) = true
  · rw [if_pos hex]
    exact pres_fs_eq rfl
  · rw [if_neg hex]
    refine ⟨fun f c hc => ?_, fun d hd => hd, fun f hne => ?_⟩
    · show lookupA (st.fs.files ++ _) f = some c
      rw [lookupA_append, hc]
    · by_cases hf : f = pathJoin targetPath (basename file)
      · subst hf
        exact Bool.not_eq_true _ ▸ (by simpa using hex)
      · exfalso
        apply hne
        show lookupA (st.fs.files ++ [(pathJoin targetPath (basename file), _)]) f = _
        rw [lookupA_append]
        cases hc : lookupA st.fs.files f with
        | some c => rfl
        | none => simp [lookupA, hf]

theorem pres_foldl_copyOneFile (targetPath : String) :
    ∀ (files : List String) (st : St),
      Pres st (files.foldl (fun s file => copyOneFile s targetPath file) st)
  | [], st => pres_refl st
  | file :: rest, st => by
    rw [List.foldl_cons]
    exact pres_trans (pres_copyOneFile st targetPath file)
      (pres_foldl_copyOneFile targetPath rest _)

theorem pres_mkdirRecursive {st : St} {p : String} {fs' : Fs}
    (h : mkdirRecursive st.fs p = Except.ok fs') :
    Pres st { st with fs := fs' } := by
  unfold mkdirRecursive at h
  by_cases hd : dirExists st.fs p = true
  · rw [if_pos hd] at h
    cases h
    exact pres_fs_eq rfl
  · rw [if_neg hd] at h
    by_cases hf : (lookupA st.fs.files p).isSome = true
    · rw [if_pos hf] at h
      cases h
    · rw [if_neg hf] at h
      cases h
      refine ⟨fun f c hc => hc, fun d hdd => ?_, fun f hne => absurd rfl hne⟩
      show (lookupA (st.fs.dirs ++ _) d).isSome = true
      unfold dirExists at hdd
      rw [lookupA_append]
      cases hc : lookupA st.fs.dirs d with
      | some v => simp
      | none => rw [hc] at hdd; simp at hdd

theorem pres_copySubdirFiles (featurePath : String) :
    ∀ (st : St) (subdirectory : String),
      Pres st (copySubdirFiles featurePath st subdirectory).1 := by
  intro st subdirectory
  show Pres st
    (match mkdirRecursive st.fs (pathJoin featurePath (basename subdirectory)) with
     | Except.error e => (st, some e)
     | Except.ok fs' =>
       match getFilesInDirectory fs' subdirectory with
       | Except.error e => ({ st with fs := fs' }, some e)
       | Except.ok files =>
         (files.foldl (fun s file => copyOneFile s
           (pathJoin featurePath (basename subdirectory)) file)
           { st with fs := fs' }, none)).1
  cases hmk : mkdirRecursive st.fs (pathJoin featurePath (basename subdirectory)) with
  | error e => exact pres_refl st
  | ok fs' =>
    have h1 : Pres st { st with fs := fs' } := pres_mkdirRecursive hmk
    show Pres st
      (match getFilesInDirectory fs' subdirectory with
       | Except.error e => ({ st with fs := fs' }, some e)
       | Except.ok files =>
         (files.foldl (fun s file => copyOneFile s
           (pathJoin featurePath (basename subdirectory)) file)
           { st with fs := fs' }, none)).1
    cases hfl : getFilesInDirectory fs' subdirectory with
    | error e => exact h1
    | ok files =>
      exact pres_trans h1 (pres_foldl_copyOneFile _ files _)

theorem pres_runSeq {α : Type} (f : St → α → St × Option String)
    (hf : ∀ s x, Pres s (f s x).1) :
    ∀ (l : List α) (st : St), Pres st (runSeq f st l).1
  | [], st => pres_refl st
  | x :: xs, st => by
    unfold runSeq
    cases hfx : f st x with
    | mk st' o =>
      cases o with
      | none =>
        have h1 : Pres st st' := by
          have := hf st x
          rw [hfx] at this
          exact this
        exact pres_trans h1 (pres_runSeq f hf xs st')
      | some e =>
        have := hf st x
        rw [hfx] at this
        exact this

theorem pres_prepOneDependency (featureParentPath featurePath : String)
    (st : St) (dependency : String) :
    Pres st (prepOneDependency featureParentPath featurePath st dependency).1 := by
  show Pres st
    (match getSubdirectories st.fs (pathJoin featureParentPath dependency) with
     | Except.error e => (st, some e)
     | Except.ok subs => runSeq (copySubdirFiles featurePath) st subs).1
  cases hs : getSubdirectories st.fs (pathJoin featureParentPath dependency) with
  | error e => exact pres_refl st
  | ok subs => exact pres_runSeq _ (pres_copySubdirFiles featurePath) subs st

theorem pres_prepDependencies (st : St) (featurePath : String)
    (dependencies : List String) :
    Pres st (prepDependencies st featurePath dependencies).1 := by
  unfold prepDependencies
  exact pres_runSeq _ (pres_prepOneDependency (parentDir featurePath) featurePath)
    dependencies st

/-!
## Claim theorems
-/

/-- C1: for every install manifest document with types section T and optional
version tag, deriving the uninstall document U (the manifest with the types
section removed) and the destructive-changes document D (a fresh root holding
only the types section) as createUninstallPackageMetadata does, and then
recombining the types of D into the emptied types section of U, reproduces
exactly the original type section: the same type entries, names and member
lists, in the same order (hence the same sets). -/
theorem claim_C1_roundtrip (parsedPackageXml : ParsedPackage) :
    ({ (createUninstallPackageMetadata parsedPackageXml).1 with
        types := (createUninstallPackageMetadata parsedPackageXml).2.types
        : XmlDoc }).types = parsedPackageXml.types ∧
    (createUninstallPackageMetadata parsedPackageXml).1.types = [] ∧
    ∀ t : TypesEntry,
      t ∈ ({ (createUninstallPackageMetadata parsedPackageXml).1 with
        types := (createUninstallPackageMetadata parsedPackageXml).2.types
        : XmlDoc }).types ↔ t ∈ parsedPackageXml.types := by
  refine ⟨rfl, ?_, fun _ => Iff.rfl⟩
  simp only [createUninstallPackageMetadata, stripStandalone,
    replacePackageOpenTag, buildObject]
  split <;> rfl

/-- C2: for every parsed install manifest (whose root either has no namespace
attribute or carries the Salesforce metadata namespace, as the manifests
generated by the packaging CLI do), createUninstallPackageMetadata produces
exactly two documents: the uninstall package.xml with the types nodes removed
and the version tag copied verbatim, and the destructiveChanges.xml whose
root holds only the types nodes and no version tag; both carry the Salesforce
metadata namespace declaration and have the standalone attribute stripped
from the header. -/
theorem claim_C2_two_documents (p : ParsedPackage)
    (h : p.xmlns = none ∨ p.xmlns = some sfMetadataNs) :
    (createUninstallPackageMetadata p).1.types = [] ∧
    (createUninstallPackageMetadata p).1.version = p.version ∧
    (createUninstallPackageMetadata p).1.rootXmlns = some sfMetadataNs ∧
    (createUninstallPackageMetadata p).1.standalone = false ∧
    (createUninstallPackageMetadata p).2.types = p.types ∧
    (createUninstallPackageMetadata p).2.version = none ∧
    (createUninstallPackageMetadata p).2.rootXmlns = some sfMetadataNs ∧
    (createUninstallPackageMetadata p).2.standalone = false := by
  rcases h with h | h <;>
    simp [createUninstallPackageMetadata, buildObject, replacePackageOpenTag,
      stripStandalone, h, sfMetadataNs]

/-- C2 witness: the guarantees instantiated at a concrete parsed install
manifest. -/
theorem claim_C2_witness :
    (witParsedPackage.xmlns = none ∨
      witParsedPackage.xmlns = some sfMetadataNs) ∧
    ((createUninstallPackageMetadata witParsedPackage).1.types = [] ∧
     (createUninstallPackageMetadata witParsedPackage).1.version =
        witParsedPackage.version ∧
     (createUninstallPackageMetadata witParsedPackage).1.rootXmlns =
        some sfMetadataNs ∧
     (createUninstallPackageMetadata witParsedPackage).1.standalone = false ∧
     (createUninstallPackageMetadata witParsedPackage).2.types =
        witParsedPackage.types ∧
     (createUninstallPackageMetadata witParsedPackage).2.version = none ∧
     (createUninstallPackageMetadata witParsedPackage).2.rootXmlns =
        some sfMetadataNs ∧
     (createUninstallPackageMetadata witParsedPackage).2.standalone = false) :=
  ⟨Or.inr rfl, claim_C2_two_documents witParsedPackage (Or.inr rfl)⟩

/-- C3 counterexample: with features alpha, beta, gamma where beta declares a
dependency on the non-existent sibling ghost, the run loop propagates the
directory-read exception (it is not caught anywhere up to the entry point),
records nothing in the shared error list, and neither beta nor the remaining
feature gamma is appended to the index, contradicting the claim. -/
theorem claim_C3_counterexample :
    (runFeaturesLoop "ws/bundles" cexBundleInfos cexSt
        ["alpha", "beta", "gamma"]).2.2 =
      some "ENOENT: no such file or directory, scandir ws/bundles/ghost" ∧
    (runFeaturesLoop "ws/bundles" cexBundleInfos cexSt
        ["alpha", "beta", "gamma"]).1.errors = [] ∧
    (runFeaturesLoop "ws/bundles" cexBundleInfos cexSt
        ["alpha", "beta", "gamma"]).2.1 = ["alpha"] := by
  refine ⟨by decide, by decide, by decide⟩

/-- C3 amended: a feature declaring a dependency on a non-existent sibling
folder makes prepDependencies raise the directory-read exception (the state,
in particular the shared error list, is returned unchanged when the missing
dependency is first in the list), and a thrown prepDependencies exception
propagates out of the run loop: the feature is not appended to the index and
the remaining features are not processed. -/
theorem claim_C3_amended :
    (∀ (st : St) (featurePath d : String) (ds : List String),
      lookupA st.fs.dirs (pathJoin (parentDir featurePath) d) = none →
      prepDependencies st featurePath (d :: ds) =
        (st, some ("ENOENT: no such file or directory, scandir " ++
          pathJoin (parentDir featurePath) d))) ∧
    (∀ (bundlesPath : String) (bundleInfos : List (String × FeatureBundle))
        (st st' : St) (folder : String) (rest : List String)
        (featureInfo : FeatureBundle) (e : String),
      lookupA bundleInfos folder = some featureInfo →
      hasDependencies featureInfo = true →
      prepDependencies st (pathJoin bundlesPath folder)
        (featureInfo.dependencies.getD []) = (st', some e) →
      runFeaturesLoop bundlesPath bundleInfos st (folder :: rest) =
        (st', [], some e)) := by
  constructor
  · intro st featurePath d ds h
    have hsub : getSubdirectories st.fs (pathJoin (parentDir featurePath) d)
        = Except.error ("ENOENT: no such file or directory, scandir " ++
          pathJoin (parentDir featurePath) d) := by
      simp [getSubdirectories, readdirTypes, h, Except.map]
    have hone : prepOneDependency (parentDir featurePath) featurePath st d
        = (st, some ("ENOENT: no such file or directory, scandir " ++
          pathJoin (parentDir featurePath) d)) := by
      simp [prepOneDependency, hsub]
    simp [prepDependencies, runSeq, hone]
  · intro bundlesPath bundleInfos st st' folder rest featureInfo e h1 h2 h3
    simp [runFeaturesLoop, h1, h2, h3]

/-- C3 witness: the amended statements instantiated at the concrete
three-feature scenario. -/
theorem claim_C3_witness :
    (lookupA cexSt.fs.dirs
        (pathJoin (parentDir "ws/bundles/beta") "ghost") = none) ∧
    prepDependencies cexSt "ws/bundles/beta" ["ghost"] =
      (cexSt, some ("ENOENT: no such file or directory, scandir " ++
        pathJoin (parentDir "ws/bundles/beta") "ghost")) ∧
    runFeaturesLoop "ws/bundles" cexBundleInfos cexSt ["beta"] =
      (cexSt, [], some "ENOENT: no such file or directory, scandir ws/bundles/ghost") :=
  ⟨by decide,
   claim_C3_amended.1 cexSt "ws/bundles/beta" "ghost" [] (by decide),
   claim_C3_amended.2 "ws/bundles" cexBundleInfos cexSt cexSt "beta" []
     ⟨"Beta", "db", none, none, none, some ["ghost"], none, none, none⟩
     "ENOENT: no such file or directory, scandir ws/bundles/ghost"
     (by decide) (by decide) (by decide)⟩

/-- C4: for every grouped-paths mapping with distinct keys and optional
ignored-marker list, FolderStructureBuilder.build equals the concatenation,
over the entries in insertion order, of the selected strategy applied to the
path list of each entry; the key objects selects the objects strategy and
every other key falls back to the default strategy; and build applied twice
to the same input yields the same output (the embedding is pure, so the
inputs cannot be mutated). -/
theorem claim_C4_build (g : List (String × List String))
    (ign : Option (List String)) (h : (g.map Prod.fst).Nodup) :
    FolderStructureBuilder.build g ign =
      (g.map (fun e => (strategyFor e.1).parseFiles e.2 ign)).flatten ∧
    strategyFor "objects" = ObjectsFolderParserStrategy ∧
    (∀ k, k ≠ "objects" → strategyFor k = DefaultFolderParserStrategy) ∧
    FolderStructureBuilder.build g ign = FolderStructureBuilder.build g ign :=
  ⟨build_eq_flatten_map g ign h, strategyFor_objects,
   fun _ hk => strategyFor_ne hk, rfl⟩

/-- C4 witness: the build decomposition at a concrete two-group mapping. -/
theorem claim_C4_witness :
    (([(("objects" : String), ["r/objects/A"]),
        ("classes", ["r/classes/B.cls"])].map Prod.fst).Nodup) ∧
    (FolderStructureBuilder.build
        [("objects", ["r/objects/A"]), ("classes", ["r/classes/B.cls"])]
        (some [".DS_Store"]) =
      ([(("objects" : String), ["r/objects/A"]),
        ("classes", ["r/classes/B.cls"])].map
        (fun e => (strategyFor e.1).parseFiles e.2 (some [".DS_Store"]))).flatten ∧
     strategyFor "objects" = ObjectsFolderParserStrategy ∧
     (∀ k, k ≠ "objects" → strategyFor k = DefaultFolderParserStrategy) ∧
     FolderStructureBuilder.build
        [("objects", ["r/objects/A"]), ("classes", ["r/classes/B.cls"])]
        (some [".DS_Store"]) =
      FolderStructureBuilder.build
        [("objects", ["r/objects/A"]), ("classes", ["r/classes/B.cls"])]
        (some [".DS_Store"])) :=
  ⟨by decide, claim_C4_build _ _ (by decide)⟩

/-- C5 counterexample: on the input path a/objects/X/objects/Y, the name Y
occurs as an immediate child segment after an objects segment and the path
ends with /objects/Y, so the claim says the path is returned; the code
captures only the first /objects/ occurrence (giving X) and returns the
empty list. -/
theorem claim_C5_counterexample :
    ObjectsFolderParserStrategy.parseFiles ["a/objects/X/objects/Y"] none
      = [] ∧
    specObjectsOutput ["a/objects/X/objects/Y"] = ["a/objects/X/objects/Y"] ∧
    ObjectsFolderParserStrategy.parseFiles ["a/objects/X/objects/Y"] none ≠
      specObjectsOutput ["a/objects/X/objects/Y"] := by
  refine ⟨by decide, by decide, by decide⟩

/-- C5 amended: the objects strategy returns exactly those input paths that
end with /objects/NAME where NAME is the capture of the FIRST /objects/
occurrence of some input path (the maximal run of non-slash characters after
the first /objects/ substring that is followed by at least one non-slash
character; later occurrences in the same path contribute no names); in
particular the concrete instance of the claim holds: for the three
Account/Contact paths it returns exactly the two directory paths,
deduplicated, with no field-level files. -/
theorem claim_C5_amended :
    (∀ (paths : List String) (ign : Option (List String)) (p : String),
      p ∈ ObjectsFolderParserStrategy.parseFiles paths ign ↔
        p ∈ paths ∧ ∃ n,
          (∃ q ∈ paths, firstObjectsCapture q.data = some n) ∧
          ("/objects/".data ++ n).isSuffixOf p.data = true) ∧
    ObjectsFolderParserStrategy.parseFiles
      ["a/objects/Account/fields/X.field-meta.xml", "a/objects/Account",
       "a/objects/Contact"] none
      = ["a/objects/Account", "a/objects/Contact"] :=
  ⟨fun _ _ _ => objects_parseFiles_mem, by decide⟩

/-- C6: for every input path list and ignored-marker list, the default
strategy returns exactly those paths whose final segment matches the
trailing extension pattern, that contain no ignored marker as a substring,
and whose final segment does not end with -meta.xml, preserving input order
(the output is a sublist of the input); in particular the concrete instance
from the claim holds. -/
theorem claim_C6_default :
    (∀ (filePaths ignoredFolderContent : List String) (p : String),
      p ∈ DefaultFolderParserStrategy.parseFiles filePaths
          (some ignoredFolderContent) ↔
        p ∈ filePaths ∧ filenameWithExtensionTest (basename p) = true ∧
          (∀ m ∈ ignoredFolderContent, strIncludes p m = false) ∧
          strEndsWith (basename p) "-meta.xml" = false) ∧
    (∀ (filePaths : List String) (ign : Option (List String)),
      (DefaultFolderParserStrategy.parseFiles filePaths ign).Sublist
        filePaths) ∧
    DefaultFolderParserStrategy.parseFiles
      ["a/b/Foo.cls", "a/b/Foo.cls-meta.xml", "a/b/info.json"]
      (some ["info.json"]) = ["a/b/Foo.cls"] := by
  refine ⟨fun filePaths ignoredFolderContent p => ?_,
    fun filePaths ign => List.filter_sublist _, by decide⟩
  show p ∈ filePaths.filter _ ↔ _
  rw [List.mem_filter]
  simp only [Bool.and_eq_true, Bool.not_eq_true', List.any_eq_false,
    and_assoc, Option.getD_some, Bool.not_eq_true]

/-- C7: for every dependency-copy run, a target file that already exists in
the dependent feature keeps its content unchanged (no copy is performed for
that target), and any path whose file binding changed was entirely vacant
(no file and no directory) before: copying happens only for targets that did
not previously exist. -/
theorem claim_C7_frame (st : St) (featurePath : String)
    (dependencies : List String) (f : String) :
    (∀ c, lookupA st.fs.files f = some c →
      lookupA (prepDependencies st featurePath dependencies).1.fs.files f =
        some c) ∧
    (lookupA (prepDependencies st featurePath dependencies).1.fs.files f ≠
        lookupA st.fs.files f →
      fileExists st.fs f = false) :=
  ⟨fun c hc => (pres_prepDependencies st featurePath dependencies).1 f c hc,
   fun hne => (pres_prepDependencies st featurePath dependencies).2.2 f hne⟩

/-- C7 witness: a pre-existing classes/A.cls of the dependent feature keeps
its content across the dependency copy. -/
theorem claim_C7_witness :
    (lookupA witSt.fs.files "bundles/beta/classes/A.cls" = some "original") ∧
    lookupA (prepDependencies witSt "bundles/beta" ["alpha"]).1.fs.files
      "bundles/beta/classes/A.cls" = some "original" :=
  ⟨by decide,
   (claim_C7_frame witSt "bundles/beta" ["alpha"]
     "bundles/beta/classes/A.cls").1 "original" (by decide)⟩

/-- C8: the index entry built for a feature carries the run-wide release
version (never the declared per-feature version: the entry is insensitive to
it), and omitted optional fields yield the defaults: availability public,
tags empty, dependencies empty, packageDependencies empty. -/
theorem claim_C8_entry (folder : String) (featureInfo : FeatureBundle)
    (releaseVersion : String) (files : List String) :
    (mkBundleEntry folder featureInfo releaseVersion files).version =
      releaseVersion ∧
    (∀ v, mkBundleEntry folder { featureInfo with version := v }
        releaseVersion files =
      mkBundleEntry folder featureInfo releaseVersion files) ∧
    (featureInfo.availability = none →
      (mkBundleEntry folder featureInfo releaseVersion files).availability =
        "public") ∧
    (featureInfo.tags = none →
      (mkBundleEntry folder featureInfo releaseVersion files).tags = []) ∧
    (featureInfo.dependencies = none →
      (mkBundleEntry folder featureInfo releaseVersion files).dependencies =
        []) ∧
    (featureInfo.packageDependencies = none →
      (mkBundleEntry folder featureInfo releaseVersion
        files).packageDependencies = []) := by
  refine ⟨rfl, fun v => rfl, fun h => ?_, fun h => ?_, fun h => ?_,
    fun h => ?_⟩ <;> simp [mkBundleEntry, jsOrStr, h]

/-- C8 witness: a declaration with every optional field absent yields the
default-filled entry with the run-wide version. -/
theorem claim_C8_witness :
    (mkBundleEntry "wit" witBundleInfo "1.2.3" []).version = "1.2.3" ∧
    (mkBundleEntry "wit" witBundleInfo "1.2.3" []).availability = "public" ∧
    (mkBundleEntry "wit" witBundleInfo "1.2.3" []).tags = [] ∧
    (mkBundleEntry "wit" witBundleInfo "1.2.3" []).dependencies = [] ∧
    (mkBundleEntry "wit" witBundleInfo "1.2.3" []).packageDependencies = [] :=
  ⟨(claim_C8_entry "wit" witBundleInfo "1.2.3" []).1,
   (claim_C8_entry "wit" witBundleInfo "1.2.3" []).2.2.1 rfl,
   (claim_C8_entry "wit" witBundleInfo "1.2.3" []).2.2.2.1 rfl,
   (claim_C8_entry "wit" witBundleInfo "1.2.3" []).2.2.2.2.1 rfl,
   (claim_C8_entry "wit" witBundleInfo "1.2.3" []).2.2.2.2.2 rfl⟩

/-- C9: the objects strategy ignores the ignored-marker argument entirely
(its output depends only on the path list), and consequently the builder
does not exclude, for the objects group, a path that contains an ignored
marker and carries a metadata-companion suffix. -/
theorem claim_C9_independent :
    (∀ (paths : List String) (i1 i2 : Option (List String)),
      ObjectsFolderParserStrategy.parseFiles paths i1 =
        ObjectsFolderParserStrategy.parseFiles paths i2) ∧
    FolderStructureBuilder.build [("objects", ["a/objects/X-meta.xml"])]
      (some ["X"]) = ["a/objects/X-meta.xml"] :=
  ⟨fun _ _ _ => rfl, by decide⟩

/-- C10: every path returned by FolderStructureBuilder.build is an element of
one of the path lists of the grouped mapping given to it: the strategies only
filter their input and never synthesize paths. -/
theorem claim_C10_subset (g : List (String × List String))
    (ign : Option (List String)) (p : String)
    (h : p ∈ FolderStructureBuilder.build g ign) :
    ∃ e ∈ g, p ∈ e.2 := by
  unfold FolderStructureBuilder.build at h
  rw [List.mem_flatten] at h
  obtain ⟨block, hblock, hp⟩ := h
  rw [List.mem_map] at hblock
  obtain ⟨key, _, rfl⟩ := hblock
  have hsub := strategyFor_parseFiles_subset hp
  cases hl : lookupA g key with
  | none => rw [hl] at hsub; simp at hsub
  | some ps =>
    rw [hl] at hsub
    exact ⟨(key, ps), lookupA_mem g key ps hl, hsub⟩

/-- C10 witness: the containment at a concrete one-group mapping. -/
theorem claim_C10_witness :
    ("a/b/F.cls" ∈
      FolderStructureBuilder.build [("classes", ["a/b/F.cls"])]
        (none : Option (List String))) ∧
    ∃ e ∈ [(("classes" : String), ["a/b/F.cls"])], "a/b/F.cls" ∈ e.2 :=
  ⟨by decide,
   claim_C10_subset [("classes", ["a/b/F.cls"])] (none : Option (List String))
     "a/b/F.cls" (by decide)⟩

end MarketplaceRelease
